import Mathlib

/-!
Shallow embedding of the glTF model loader and scene orchestrator found in
`src/graphics/model.rs` of the LearnRust repository.

Conventions of the embedding:
* `f32` scalars are idealised as rationals (`ℚ`); the algebraic claims under
  study concern composition structure, not rounding.
* Matrices are 4x4 rationals with explicit entrywise multiplication, matching
  the column-vector convention of the `nalgebra-glm` library: `glm::translate`
  and `glm::scale` post-multiply their matrix argument, quaternion-to-matrix
  conversion follows the standard unit-quaternion rotation matrix.
* Trigonometric functions and vector normalisation come from the external math
  library; they are parameters of the definitions that use them.
* Rust panics (`unwrap`, `panic!` in the loader, out-of-bounds indexing) are
  modelled as `Except.error`.
* `Rc<Texture>` reference identity is modelled by giving every invocation of
  the texture load routine a fresh numeric `id`; the load-state additionally
  records the sequence of image indices for which the load routine actually
  ran (`events`), and each texture records the image index it was created
  from, so that sharing and load counts are observable.
-/

namespace LearnRust

/-- Two-component rational vector, standing in for `glm::Vec2`. -/
structure V2 where
  x : ℚ
  y : ℚ
  deriving DecidableEq, Repr, Inhabited

/-- Three-component rational vector, standing in for `glm::Vec3`. -/
structure V3 where
  x : ℚ
  y : ℚ
  z : ℚ
  deriving DecidableEq, Repr, Inhabited

/-- Four-component rational vector, standing in for `glm::Vec4`. -/
structure V4 where
  x : ℚ
  y : ℚ
  z : ℚ
  w : ℚ
  deriving DecidableEq, Repr, Inhabited

instance : Add V3 := ⟨fun a b => ⟨a.x + b.x, a.y + b.y, a.z + b.z⟩⟩

theorem V3.add_def (a b : V3) : a + b = ⟨a.x + b.x, a.y + b.y, a.z + b.z⟩ := rfl

/-- Quaternion with components `(x, y, z, w)`, standing in for `glm::Quat`. -/
structure Quat where
  x : ℚ
  y : ℚ
  z : ℚ
  w : ℚ
  deriving DecidableEq, Repr, Inhabited

/-- Hamilton product, the `*` of `glm::Quat`. -/
def Quat.mul (a b : Quat) : Quat where
  w := a.w * b.w - a.x * b.x - a.y * b.y - a.z * b.z
  x := a.w * b.x + a.x * b.w + a.y * b.z - a.z * b.y
  y := a.w * b.y - a.x * b.z + a.y * b.w + a.z * b.x
  z := a.w * b.z + a.x * b.y - a.y * b.x + a.z * b.w

instance : Mul Quat := ⟨Quat.mul⟩

/-- 4x4 rational matrix (entry `mIJ` is row `I`, column `J`), standing in for
`glm::Mat4` under the column-vector convention. -/
structure Mat4 where
  m00 : ℚ
  m01 : ℚ
  m02 : ℚ
  m03 : ℚ
  m10 : ℚ
  m11 : ℚ
  m12 : ℚ
  m13 : ℚ
  m20 : ℚ
  m21 : ℚ
  m22 : ℚ
  m23 : ℚ
  m30 : ℚ
  m31 : ℚ
  m32 : ℚ
  m33 : ℚ
  deriving DecidableEq, Repr, Inhabited

/-- Matrix product. -/
def Mat4.mul (a b : Mat4) : Mat4 where
  m00 := a.m00 * b.m00 + a.m01 * b.m10 + a.m02 * b.m20 + a.m03 * b.m30
  m01 := a.m00 * b.m01 + a.m01 * b.m11 + a.m02 * b.m21 + a.m03 * b.m31
  m02 := a.m00 * b.m02 + a.m01 * b.m12 + a.m02 * b.m22 + a.m03 * b.m32
  m03 := a.m00 * b.m03 + a.m01 * b.m13 + a.m02 * b.m23 + a.m03 * b.m33
  m10 := a.m10 * b.m00 + a.m11 * b.m10 + a.m12 * b.m20 + a.m13 * b.m30
  m11 := a.m10 * b.m01 + a.m11 * b.m11 + a.m12 * b.m21 + a.m13 * b.m31
  m12 := a.m10 * b.m02 + a.m11 * b.m12 + a.m12 * b.m22 + a.m13 * b.m32
  m13 := a.m10 * b.m03 + a.m11 * b.m13 + a.m12 * b.m23 + a.m13 * b.m33
  m20 := a.m20 * b.m00 + a.m21 * b.m10 + a.m22 * b.m20 + a.m23 * b.m30
  m21 := a.m20 * b.m01 + a.m21 * b.m11 + a.m22 * b.m21 + a.m23 * b.m31
  m22 := a.m20 * b.m02 + a.m21 * b.m12 + a.m22 * b.m22 + a.m23 * b.m32
  m23 := a.m20 * b.m03 + a.m21 * b.m13 + a.m22 * b.m23 + a.m23 * b.m33
  m30 := a.m30 * b.m00 + a.m31 * b.m10 + a.m32 * b.m20 + a.m33 * b.m30
  m31 := a.m30 * b.m01 + a.m31 * b.m11 + a.m32 * b.m21 + a.m33 * b.m31
  m32 := a.m30 * b.m02 + a.m31 * b.m12 + a.m32 * b.m22 + a.m33 * b.m32
  m33 := a.m30 * b.m03 + a.m31 * b.m13 + a.m32 * b.m23 + a.m33 * b.m33

instance : Mul Mat4 := ⟨Mat4.mul⟩

/-- `Mat4::identity()`. -/
def Mat4.identity : Mat4 where
  m00 := 1; m01 := 0; m02 := 0; m03 := 0
  m10 := 0; m11 := 1; m12 := 0; m13 := 0
  m20 := 0; m21 := 0; m22 := 1; m23 := 0
  m30 := 0; m31 := 0; m32 := 0; m33 := 1

/-- Homogeneous translation matrix: `glm::translate(&Mat4::identity(), &v)`. -/
def translationMatrix (v : V3) : Mat4 where
  m00 := 1; m01 := 0; m02 := 0; m03 := v.x
  m10 := 0; m11 := 1; m12 := 0; m13 := v.y
  m20 := 0; m21 := 0; m22 := 1; m23 := v.z
  m30 := 0; m31 := 0; m32 := 0; m33 := 1

/-- Homogeneous scale matrix: `glm::scale(&Mat4::identity(), &v)`. -/
def scaleMatrix (v : V3) : Mat4 where
  m00 := v.x; m01 := 0; m02 := 0; m03 := 0
  m10 := 0; m11 := v.y; m12 := 0; m13 := 0
  m20 := 0; m21 := 0; m22 := v.z; m23 := 0
  m30 := 0; m31 := 0; m32 := 0; m33 := 1

/-- `glm::quat_to_mat4`: the rotation matrix of a (unit) quaternion, embedded
homogeneously. -/
def quatToMat4 (q : Quat) : Mat4 where
  m00 := 1 - 2 * (q.y * q.y + q.z * q.z)
  m01 := 2 * (q.x * q.y - q.w * q.z)
  m02 := 2 * (q.x * q.z + q.w * q.y)
  m03 := 0
  m10 := 2 * (q.x * q.y + q.w * q.z)
  m11 := 1 - 2 * (q.x * q.x + q.z * q.z)
  m12 := 2 * (q.y * q.z - q.w * q.x)
  m13 := 0
  m20 := 2 * (q.x * q.z - q.w * q.y)
  m21 := 2 * (q.y * q.z + q.w * q.x)
  m22 := 1 - 2 * (q.x * q.x + q.y * q.y)
  m23 := 0
  m30 := 0; m31 := 0; m32 := 0; m33 := 1

/-- `glm::translate(&m, &v)` post-multiplies `m` by the translation matrix. -/
def glmTranslate (m : Mat4) (v : V3) : Mat4 :=
  m * translationMatrix v

/-- `glm::scale(&m, &v)` post-multiplies `m` by the scale matrix. -/
def glmScale (m : Mat4) (v : V3) : Mat4 :=
  m * scaleMatrix v

/-- `glm::radians` of a degree value; `pi` is the external library's constant. -/
def radians (pi degrees : ℚ) : ℚ :=
  degrees * pi / 180

/-- `glm::quat_angle_axis(angle, &axis)`: the quaternion
`(sin(angle/2) * unit(axis), cos(angle/2))`.  The trigonometric functions
`tcos`/`tsin` and the normalisation `vnorm` belong to the external math
library and are parameters of the embedding. -/
def quatAngleAxis (tcos tsin : ℚ → ℚ) (vnorm : V3 → V3) (angle : ℚ) (axis : V3) :
    Quat :=
  let u := vnorm axis
  { x := u.x * tsin (angle / 2)
    y := u.y * tsin (angle / 2)
    z := u.z * tsin (angle / 2)
    w := tcos (angle / 2) }

/-- `glm::quat(x, y, z, w)` applied to the components of the decomposed
rotation vector. -/
def mkQuat (r : V4) : Quat :=
  { x := r.x, y := r.y, z := r.z, w := r.w }

/-- One vertex, as in `buffers::vertex_buffer::Vertex`. -/
structure Vertex where
  position : V3
  normal : V3
  texUV : V2
  color : V4
  deriving DecidableEq, Repr, Inhabited

/-- The OpenGL pixel formats the loader selects among
(`gl::RGBA`, `gl::RGB`, `gl::RED`). -/
inductive GlFormat where
  | RGBA
  | RGB
  | RED
  deriving DecidableEq, Repr, Inhabited

/-- A GPU texture as produced by `Texture::load_from_gltf`.  `id` is the
allocation identity of the `Rc<Texture>` (fresh per actual load call);
`imageIndex` is ghost data recording which document image it was created
from. -/
structure Texture where
  id : Nat
  imageIndex : Nat
  role : String
  format : GlFormat
  width : Nat
  height : Nat
  deriving DecidableEq, Repr, Inhabited

/-- The source-image pixel formats the loader distinguishes
(`gltf::image::Format`): 4-channel `R8G8B8A8`, 3-channel `R8G8B8`,
1-channel `R8`, and any other variant of the enum. -/
inductive GFormat where
  | R8G8B8A8
  | R8G8B8
  | R8
  | Other
  deriving DecidableEq, Repr, Inhabited

/-- A decoded document image (`gltf::image::Data`). -/
structure GImage where
  pixels : List Nat
  width : Nat
  height : Nat
  format : GFormat
  deriving DecidableEq, Repr, Inhabited

/-- Source storage width of an index accessor. -/
inductive IndexWidth where
  | U8
  | U16
  | U32
  deriving DecidableEq, Repr, Inhabited

/-- Upper bound of the values representable at a given index width. -/
def IndexWidth.bound : IndexWidth → Nat
  | .U8 => 2 ^ 8
  | .U16 => 2 ^ 16
  | .U32 => 2 ^ 32

/-- Index data as yielded by `reader.read_indices()`: the stored values
together with their source width. -/
structure GIndices where
  width : IndexWidth
  values : List Nat
  deriving DecidableEq, Repr, Inhabited

/-- Well-formedness of source index data: every value fits its width. -/
def GIndices.wf (gi : GIndices) : Prop :=
  ∀ v ∈ gi.values, v < gi.width.bound

instance (gi : GIndices) : Decidable gi.wf := by
  unfold GIndices.wf; infer_instance

/-- `indices.into_u32()`: widening conversion to the `u32` domain; values are
preserved. -/
def GIndices.intoU32 (gi : GIndices) : List Nat :=
  gi.values

/-- One geometric primitive of a document mesh, exposing exactly what the
loader reads from it: the accessor readers (each `Option`, `none` when the
reader yields no data), the material scalars, and the source image indices of
the base-color and metallic-roughness texture slots. -/
structure GPrimitive where
  positions : Option (List V3)
  normals : Option (List V3)
  texCoords : Option (List V2)
  colors : Option (List V4)
  indices : Option GIndices
  baseColorFactor : V4
  doubleSided : Bool
  baseColorTexture : Option Nat
  metallicRoughnessTexture : Option Nat
  deriving DecidableEq, Repr, Inhabited

/-- A document mesh: its primitives. -/
structure GMesh where
  primitives : List GPrimitive
  deriving DecidableEq, Repr, Inhabited

/-- A document node: optional name, decomposed transform
(`node.transform().decomposed()`, with the rotation as an `(x, y, z, w)`
vector), and optional mesh. -/
structure GNode where
  name : Option String
  translation : V3
  rotation : V4
  scale : V3
  mesh : Option GMesh
  deriving DecidableEq, Repr, Inhabited

/-- A parsed document: nodes in document order, decoded images. -/
structure GltfDoc where
  nodes : List GNode
  images : List GImage
  deriving DecidableEq, Repr, Inhabited

/-- A loaded mesh (`mesh::Mesh`): vertices, `u32` indices, shared texture
handles, base color factor and double-sided flag. -/
structure Mesh where
  vertices : List Vertex
  indices : List Nat
  textures : List Texture
  baseColor : V4
  doubleSided : Bool
  deriving DecidableEq, Repr, Inhabited

/-- `Mesh::new`: pure aggregation constructor. -/
def Mesh.new (vertices : List Vertex) (indices : List Nat)
    (textures : List Texture) (baseColor : V4) (doubleSided : Bool) : Mesh :=
  { vertices, indices, textures, baseColor, doubleSided }

/-- The decomposed local transform of a node (`NodeTransform`). -/
structure NodeTransform where
  translation : V3
  rotation : Quat
  scale : V3
  deriving DecidableEq, Repr, Inhabited

/-- One loaded scene node (`Node`). -/
structure Node where
  name : String
  transform : NodeTransform
  transform_matrix : Mat4
  mesh_primitives : List Mesh
  deriving DecidableEq, Repr, Inhabited

/-- The scene orchestrator (`Model`).  The callback types are parameters:
`R` stands for the `fn()` ready callback, `B` for the boxed behavior
closure. -/
structure Model (R B : Type) where
  nodes : List Node
  ready_callback : Option R
  behavior_callback : Option B

/-- State of the texture cache during one load: the cache proper
(keyed by image index, newest entry first), the next fresh `Rc` identity,
and the ghost log of image indices for which `Texture::load_from_gltf`
actually ran, in execution order. -/
structure LoadState where
  cache : List (Nat × Texture)
  nextId : Nat
  events : List Nat
  deriving DecidableEq, Repr, Inhabited

/-- The empty cache at the start of `Model::new`. -/
def initState : LoadState :=
  { cache := [], nextId := 0, events := [] }

/-- Lookup in the cache, as `HashMap::entry` would find an occupied entry. -/
def cacheLookup : List (Nat × Texture) → Nat → Option Texture
  | [], _ => none
  | (k, t) :: rest, i => if k = i then some t else cacheLookup rest i

/-- Error message of the `panic!` on an unsupported base-color format. -/
def unsupportedFormatMsg : String :=
  "unsupported image format not rgba, rgb, or r"

/-- Error message standing in for a Rust `Option::unwrap` panic. -/
def unwrapNoneMsg : String :=
  "called Option::unwrap on a None value"

/-- Error message standing in for a Rust out-of-bounds indexing panic. -/
def indexOobMsg : String :=
  "index out of bounds"

/-- Format selection for the base-color (diffuse) slot: `R8G8B8A8 → RGBA`,
`R8G8B8 → RGB`, `R8 → RED`, anything else panics. -/
def diffuseFormat : GFormat → Except String GlFormat
  | .R8G8B8A8 => .ok .RGBA
  | .R8G8B8 => .ok .RGB
  | .R8 => .ok .RED
  | .Other => .error unsupportedFormatMsg

/-- Format selection for the metallic-roughness (specular) slot:
`R8G8B8A8 → RGBA`, `R8G8B8 → RGB`, everything else falls through to `RGB`. -/
def specularFormat : GFormat → GlFormat
  | .R8G8B8A8 => .RGBA
  | .R8G8B8 => .RGB
  | _ => .RGB

/-- The `texture_cache.entry(image_index).or_insert_with(..)` of the
base-color branch: a cache hit returns the shared handle untouched; a miss
indexes `images`, resolves the format (possibly panicking), runs
`Texture::load_from_gltf` with role `"diffuse"`, and inserts the new
handle. -/
def loadDiffuseTexture (images : List GImage) (st : LoadState)
    (imageIndex : Nat) : Except String (Texture × LoadState) :=
  match cacheLookup st.cache imageIndex with
  | some t => .ok (t, st)
  | none =>
    match images[imageIndex]? with
    | none => .error indexOobMsg
    | some image =>
      match diffuseFormat image.format with
      | .error e => .error e
      | .ok fmt =>
        let t : Texture :=
          { id := st.nextId, imageIndex := imageIndex, role := "diffuse"
            format := fmt, width := image.width, height := image.height }
        .ok (t, { cache := (imageIndex, t) :: st.cache
                  nextId := st.nextId + 1
                  events := st.events ++ [imageIndex] })

/-- The `texture_cache.entry(image_index).or_insert_with(..)` of the
metallic-roughness branch: as above but with the lenient format selection and
role `"specular"`. -/
def loadSpecularTexture (images : List GImage) (st : LoadState)
    (imageIndex : Nat) : Except String (Texture × LoadState) :=
  match cacheLookup st.cache imageIndex with
  | some t => .ok (t, st)
  | none =>
    match images[imageIndex]? with
    | none => .error indexOobMsg
    | some image =>
      let t : Texture :=
        { id := st.nextId, imageIndex := imageIndex, role := "specular"
          format := specularFormat image.format
          width := image.width, height := image.height }
      .ok (t, { cache := (imageIndex, t) :: st.cache
                nextId := st.nextId + 1
                events := st.events ++ [imageIndex] })

/-- Texture resolution of one primitive: the diffuse slot first (when the
material has a base-color texture), then the specular slot (when it has a
metallic-roughness texture), pushing the shared handles in that order. -/
def loadPrimTextures (images : List GImage) (st : LoadState)
    (p : GPrimitive) : Except String (List Texture × LoadState) :=
  match p.baseColorTexture with
  | some i =>
    match loadDiffuseTexture images st i with
    | .error e => .error e
    | .ok (t, st1) =>
      match p.metallicRoughnessTexture with
      | some j =>
        match loadSpecularTexture images st1 j with
        | .error e => .error e
        | .ok (t2, st2) => .ok ([t, t2], st2)
      | none => .ok ([t], st1)
  | none =>
    match p.metallicRoughnessTexture with
    | some j =>
      match loadSpecularTexture images st j with
      | .error e => .error e
      | .ok (t2, st2) => .ok ([t2], st2)
    | none => .ok ([], st)

/-- Vertex construction: the loader maps over the positions with their index
and reads `normals[i]` and `tex_coords[i]`, panicking when either runs
short; every vertex receives the same per-primitive `color`. -/
def mkVertices : List V3 → List V3 → List V2 → V4 → Except String (List Vertex)
  | [], _, _, _ => .ok []
  | p :: ps, n :: ns, t :: ts, c =>
    match mkVertices ps ns ts c with
    | .error e => .error e
    | .ok vs => .ok ({ position := p, normal := n, texUV := t, color := c } :: vs)
  | _ :: _, _, _, _ => .error indexOobMsg

/-- Loading of one primitive, mirroring the body of the primitive loop of
`Model::new`: required position / normal / UV readers (`unwrap`), the
vertex-color default, the index default, vertex construction, texture
resolution, and the final `Mesh::new`. -/
def loadPrimitive (images : List GImage) (st : LoadState) (p : GPrimitive) :
    Except String (Mesh × LoadState) :=
  match p.positions with
  | none => .error unwrapNoneMsg
  | some positions =>
    match p.normals with
    | none => .error unwrapNoneMsg
    | some normals =>
      match p.texCoords with
      | none => .error unwrapNoneMsg
      | some texCoords =>
        match
          (match p.colors with
           | some colors =>
             match colors with
             | [] => .error indexOobMsg
             | c :: _ => .ok c
           | none => .ok (⟨1, 1, 1, 1⟩ : V4) : Except String V4) with
        | .error e => .error e
        | .ok color =>
          let indices : List Nat :=
            match p.indices with
            | some gi => gi.intoU32
            | none => []
          match mkVertices positions normals texCoords color with
          | .error e => .error e
          | .ok vertices =>
            match loadPrimTextures images st p with
            | .error e => .error e
            | .ok (textures, st1) =>
              .ok (Mesh.new vertices indices textures p.baseColorFactor
                     p.doubleSided, st1)

/-- Loading of all primitives of a mesh, in order, threading the cache. -/
def loadPrims (images : List GImage) :
    LoadState → List GPrimitive → Except String (List Mesh × LoadState)
  | st, [] => .ok ([], st)
  | st, p :: rest =>
    match loadPrimitive images st p with
    | .error e => .error e
    | .ok (mesh, st1) =>
      match loadPrims images st1 rest with
      | .error e => .error e
      | .ok (meshes, st2) => .ok (mesh :: meshes, st2)

/-- The node loop of `Model::new`.  Each node is first greeted by the debug
`println!("loading Node: {:?}", node.name().unwrap())`, whose `unwrap`
panics on an unnamed node; then its decomposed transform and
`translation_matrix * rotation_matrix * scale_matrix` are computed; a node
without a mesh is skipped; a node with a mesh yields a `Node` with
`node.name().unwrap_or_default()` as its name. -/
def loadNodes (images : List GImage) :
    LoadState → List GNode → Except String (List Node × LoadState)
  | st, [] => .ok ([], st)
  | st, n :: rest =>
    match n.name with
    | none => .error unwrapNoneMsg
    | some _ =>
      match n.mesh with
      | none => loadNodes images st rest
      | some gm =>
        match loadPrims images st gm.primitives with
        | .error e => .error e
        | .ok (meshes, st1) =>
          match loadNodes images st1 rest with
          | .error e => .error e
          | .ok (nodes, st2) =>
            .ok ({ name := n.name.getD ""
                   transform :=
                     { translation := n.translation
                       rotation := mkQuat n.rotation
                       scale := n.scale }
                   transform_matrix :=
                     translationMatrix n.translation *
                       quatToMat4 (mkQuat n.rotation) * scaleMatrix n.scale
                   mesh_primitives := meshes } :: nodes, st2)

/-- The whole load of `Model::new` over an already-parsed document, returning
the node list together with the final cache state. -/
def loadModelAux (doc : GltfDoc) : Except String (List Node × LoadState) :=
  loadNodes doc.images initState doc.nodes

/-- `Model::new`: load the document's nodes; the callbacks start out
unset. -/
def Model.new (R B : Type) (doc : GltfDoc) : Except String (Model R B) :=
  match loadModelAux doc with
  | .error e => .error e
  | .ok (nodes, _) => .ok { nodes, ready_callback := none, behavior_callback := none }

/-- `Model::translate`: per node, `transform.translation += v` and
`transform_matrix = glm::translate(&transform_matrix, &v)`. -/
def Model.translate {R B : Type} (m : Model R B) (translation : V3) : Model R B :=
  { m with
    nodes := m.nodes.map fun n =>
      { n with
        transform :=
          { n.transform with translation := n.transform.translation + translation }
        transform_matrix := glmTranslate n.transform_matrix translation } }

/-- `Model::rotate`: convert degrees to radians, build one quaternion with
`glm::quat_angle_axis`, then per node left-multiply the stored rotation by it
and left-multiply the matrix by its `glm::quat_to_mat4` form.  `tcos`,
`tsin`, `vnorm` and `pi` are the external math library's routines. -/
def Model.rotate {R B : Type} (tcos tsin : ℚ → ℚ) (vnorm : V3 → V3) (pi : ℚ)
    (m : Model R B) (axis : V3) (degrees : ℚ) : Model R B :=
  let rad := radians pi degrees
  let rotation_quat := quatAngleAxis tcos tsin vnorm rad axis
  { m with
    nodes := m.nodes.map fun n =>
      { n with
        transform :=
          { n.transform with rotation := rotation_quat * n.transform.rotation }
        transform_matrix := quatToMat4 rotation_quat * n.transform_matrix } }

/-- `Model::scale`: per node, `transform.scale += v` and
`transform_matrix = glm::scale(&transform_matrix, &v)`. -/
def Model.scale {R B : Type} (m : Model R B) (s : V3) : Model R B :=
  { m with
    nodes := m.nodes.map fun n =>
      { n with
        transform := { n.transform with scale := n.transform.scale + s }
        transform_matrix := glmScale n.transform_matrix s } }

/-- `Model::define_ready`. -/
def Model.define_ready {R B : Type} (m : Model R B) (f : R) : Model R B :=
  { m with ready_callback := some f }

/-- `Model::define_behavior`. -/
def Model.define_behavior {R B : Type} (m : Model R B) (f : B) : Model R B :=
  { m with behavior_callback := some f }

/-! ## Basic algebraic helpers -/

theorem V3.add_assoc (a b c : V3) : a + b + c = a + (b + c) := by
  cases a; cases b; cases c
  simp only [V3.add_def, V3.mk.injEq]
  exact ⟨by ring, by ring, by ring⟩

/-- C4: applying `translate(t1)` and then `translate(t2)` leaves every node's
`transform.translation` at its original value plus the vector sum `t1 + t2`,
and its `transform_matrix` at the original matrix composed on the right with
the translation matrix of `t1` and then that of `t2`, in that order. -/
theorem C4_translate_translate_accumulates {R B : Type} (m : Model R B)
    (t1 t2 : V3) :
    ((m.translate t1).translate t2).nodes.map
        (fun n => (n.transform.translation, n.transform_matrix)) =
      m.nodes.map (fun n =>
        (n.transform.translation + (t1 + t2),
         n.transform_matrix * translationMatrix t1 * translationMatrix t2)) := by
  simp only [Model.translate, List.map_map]
  refine List.map_congr_left fun n _ => ?_
  simp [glmTranslate, V3.add_assoc]

/-- C7: `rotate(axis, degrees)` converts degrees to radians, builds one
rotation quaternion from the axis and angle via `quat_angle_axis`, and for
every node left-multiplies that quaternion onto the stored rotation and
left-multiplies its `quat_to_mat4` form onto `transform_matrix`; the same
quaternion is used for every node. -/
theorem C7_rotate_left_multiplies {R B : Type} (tcos tsin : ℚ → ℚ)
    (vnorm : V3 → V3) (pi : ℚ) (m : Model R B) (axis : V3) (degrees : ℚ) :
    (Model.rotate tcos tsin vnorm pi m axis degrees).nodes.map
        (fun n => (n.transform.rotation, n.transform_matrix)) =
      m.nodes.map (fun n =>
        (quatAngleAxis tcos tsin vnorm (radians pi degrees) axis *
           n.transform.rotation,
         quatToMat4 (quatAngleAxis tcos tsin vnorm (radians pi degrees) axis) *
           n.transform_matrix)) := by
  simp only [Model.rotate, List.map_map]
  exact List.map_congr_left fun n _ => rfl

/-- C10: `translate`, `rotate` and `scale` modify only the transform data of
each node: every node's `name` and `mesh_primitives` (hence also the count
and order of nodes), and the registered `ready`/`behavior` callbacks, are
unchanged. -/
theorem C10_mutations_touch_only_transforms {R B : Type} (tcos tsin : ℚ → ℚ)
    (vnorm : V3 → V3) (pi : ℚ) (m : Model R B) (v axis s : V3) (degrees : ℚ) :
    ((m.translate v).nodes.map (fun n => (n.name, n.mesh_primitives)) =
        m.nodes.map (fun n => (n.name, n.mesh_primitives)) ∧
      (m.translate v).ready_callback = m.ready_callback ∧
      (m.translate v).behavior_callback = m.behavior_callback) ∧
    ((Model.rotate tcos tsin vnorm pi m axis degrees).nodes.map
          (fun n => (n.name, n.mesh_primitives)) =
        m.nodes.map (fun n => (n.name, n.mesh_primitives)) ∧
      (Model.rotate tcos tsin vnorm pi m axis degrees).ready_callback =
        m.ready_callback ∧
      (Model.rotate tcos tsin vnorm pi m axis degrees).behavior_callback =
        m.behavior_callback) ∧
    ((m.scale s).nodes.map (fun n => (n.name, n.mesh_primitives)) =
        m.nodes.map (fun n => (n.name, n.mesh_primitives)) ∧
      (m.scale s).ready_callback = m.ready_callback ∧
      (m.scale s).behavior_callback = m.behavior_callback) := by
  refine ⟨⟨?_, rfl, rfl⟩, ⟨?_, rfl, rfl⟩, ⟨?_, rfl, rfl⟩⟩ <;>
    · simp only [Model.translate, Model.rotate, Model.scale, List.map_map]
      exact List.map_congr_left fun n _ => rfl

/-! ## Loader shape: which nodes are emitted, and with what transform data -/

/-- The state-independent portion of an emitted node. -/
def nodeShape (nd : Node) : String × NodeTransform × Mat4 :=
  (nd.name, nd.transform, nd.transform_matrix)

/-- The name, decomposed transform and composed matrix the node loop of
`Model::new` gives to the node it emits for a document node. -/
def gnodeShape (n : GNode) : String × NodeTransform × Mat4 :=
  (n.name.getD "",
   { translation := n.translation, rotation := mkQuat n.rotation,
     scale := n.scale },
   translationMatrix n.translation * quatToMat4 (mkQuat n.rotation) *
     scaleMatrix n.scale)

theorem loadNodes_shape (images : List GImage) :
    ∀ (ns : List GNode) (st : LoadState) (res : List Node) (st2 : LoadState),
      loadNodes images st ns = .ok (res, st2) →
      res.map nodeShape = (ns.filter fun n => n.mesh.isSome).map gnodeShape := by
  intro ns
  induction ns with
  | nil =>
    intro st res st2 h
    simp only [loadNodes, Except.ok.injEq, Prod.mk.injEq] at h
    obtain ⟨h1, _⟩ := h
    simp [← h1]
  | cons n rest ih =>
    intro st res st2 h
    simp only [loadNodes] at h
    cases hname : n.name with
    | none => simp [hname] at h
    | some nm =>
      simp only [hname] at h
      cases hmesh : n.mesh with
      | none =>
        simp only [hmesh] at h
        have := ih st res st2 h
        simpa [hmesh] using this
      | some gm =>
        simp only [hmesh] at h
        cases hp : loadPrims images st gm.primitives with
        | error e => simp [hp] at h
        | ok pr =>
          obtain ⟨meshes, st1⟩ := pr
          simp only [hp] at h
          cases hr : loadNodes images st1 rest with
          | error e => simp [hr] at h
          | ok pr2 =>
            obtain ⟨nodes, stEnd⟩ := pr2
            simp only [hr, Except.ok.injEq, Prod.mk.injEq] at h
            obtain ⟨h1, _⟩ := h
            subst h1
            simp [hmesh, hname, nodeShape, gnodeShape, ih st1 nodes stEnd hr]

/-- C2: a successful load emits exactly one `Node` per document node that has
an attached mesh (a meshless document node contributes no node at all), and
the emitted nodes appear in document order. -/
theorem C2_emitted_nodes (doc : GltfDoc) (res : List Node) (st : LoadState)
    (h : loadModelAux doc = .ok (res, st)) :
    res.length = (doc.nodes.filter fun n => n.mesh.isSome).length ∧
    res.map nodeShape = (doc.nodes.filter fun n => n.mesh.isSome).map gnodeShape := by
  have hs := loadNodes_shape doc.images doc.nodes initState res st h
  refine ⟨?_, hs⟩
  have hl := congrArg List.length hs
  simpa using hl

/-- C5: every emitted node's `transform_matrix` equals
`translationMatrix * quatToMat4 rotation * scaleMatrix` of its decomposed
transform — scale applied first, then rotation, then translation — and that
decomposed transform is taken from a document node with a mesh. -/
theorem C5_trs_matrix (doc : GltfDoc) (res : List Node) (st : LoadState)
    (h : loadModelAux doc = .ok (res, st)) :
    ∀ nd ∈ res,
      (∃ gn, gn ∈ doc.nodes ∧ gn.mesh.isSome ∧
        nd.transform = { translation := gn.translation,
                         rotation := mkQuat gn.rotation, scale := gn.scale }) ∧
      nd.transform_matrix =
        translationMatrix nd.transform.translation *
          quatToMat4 nd.transform.rotation *
          scaleMatrix nd.transform.scale := by
  intro nd hnd
  have hs := loadNodes_shape doc.images doc.nodes initState res st h
  have hmem : nodeShape nd ∈
      (doc.nodes.filter fun n => n.mesh.isSome).map gnodeShape := by
    rw [← hs]
    exact List.mem_map_of_mem _ hnd
  obtain ⟨gn, hgn, hshape⟩ := List.mem_map.mp hmem
  have hgn2 := List.mem_filter.mp hgn
  simp only [gnodeShape, nodeShape, Prod.mk.injEq] at hshape
  obtain ⟨hname, htr, hmat⟩ := hshape
  constructor
  · exact ⟨gn, hgn2.1, hgn2.2, htr.symm⟩
  · rw [← htr]
    exact hmat.symm

/-- A document whose only node is unnamed (and carries a mesh with no
primitives). -/
def unnamedNodeDoc : GltfDoc :=
  { nodes := [{ name := none, translation := ⟨0, 0, 0⟩,
                rotation := ⟨0, 0, 0, 1⟩, scale := ⟨1, 1, 1⟩,
                mesh := some { primitives := [] } }],
    images := [] }

/-- C3: contrary to the specification, loading a document that contains an
unnamed node fails: the debug `println!` at the top of the node loop calls
`node.name().unwrap()`, which panics on a `None` name before the
`unwrap_or_default()` fallback of the emitted node is ever reached. -/
theorem C3_unnamed_node_panics :
    Model.new Unit Unit unnamedNodeDoc = .error unwrapNoneMsg := rfl

/-! ## Primitive loading: vertex colors and indices -/

theorem mkVertices_color :
    ∀ (ps ns : List V3) (ts : List V2) (c : V4) (vs : List Vertex),
      mkVertices ps ns ts c = .ok vs → ∀ v ∈ vs, v.color = c := by
  intro ps
  induction ps with
  | nil =>
    intro ns ts c vs h v hv
    simp only [mkVertices, Except.ok.injEq] at h
    rw [← h] at hv
    simp at hv
  | cons p ps ih =>
    intro ns ts c vs h v hv
    cases ns with
    | nil => simp [mkVertices] at h
    | cons nn ns =>
      cases ts with
      | nil => simp [mkVertices] at h
      | cons t ts =>
        simp only [mkVertices] at h
        cases hm : mkVertices ps ns ts c with
        | error e => simp [hm] at h
        | ok vs2 =>
          simp only [hm, Except.ok.injEq] at h
          rw [← h] at hv
          rcases List.mem_cons.mp hv with hv1 | hv1
          · rw [hv1]
          · exact ih ns ts c vs2 hm v hv1

theorem IndexWidth.bound_le (w : IndexWidth) : w.bound ≤ 2 ^ 32 := by
  cases w <;> decide

/-- Destructuring of a successful `loadPrimitive` into the values of each of
its reads: required accessors present, the per-primitive color, the vertex
list, the resolved textures, and the aggregated mesh. -/
theorem loadPrimitive_fields (images : List GImage) (st : LoadState)
    (p : GPrimitive) (mesh : Mesh) (st2 : LoadState)
    (h : loadPrimitive images st p = .ok (mesh, st2)) :
    ∃ positions normals texCoords color vertices textures st1,
      p.positions = some positions ∧ p.normals = some normals ∧
      p.texCoords = some texCoords ∧
      (p.colors = none → color = (⟨1, 1, 1, 1⟩ : V4)) ∧
      (∀ c cs, p.colors = some (c :: cs) → color = c) ∧
      mkVertices positions normals texCoords color = .ok vertices ∧
      loadPrimTextures images st p = .ok (textures, st1) ∧
      mesh = Mesh.new vertices
        (match p.indices with | some gi => gi.intoU32 | none => [])
        textures p.baseColorFactor p.doubleSided ∧
      st2 = st1 := by
  simp only [loadPrimitive] at h
  cases hpos : p.positions with
  | none => simp [hpos] at h
  | some positions =>
    simp only [hpos] at h
    cases hn : p.normals with
    | none => simp [hn] at h
    | some normals =>
      simp only [hn] at h
      cases ht : p.texCoords with
      | none => simp [ht] at h
      | some texCoords =>
        simp only [ht] at h
        cases hc : p.colors with
        | none =>
          simp only [hc] at h
          cases hv : mkVertices positions normals texCoords ⟨1, 1, 1, 1⟩ with
          | error e => simp [hv] at h
          | ok vertices =>
            simp only [hv] at h
            cases htex : loadPrimTextures images st p with
            | error e => simp [htex] at h
            | ok pr =>
              obtain ⟨textures, st1⟩ := pr
              simp only [htex, Except.ok.injEq, Prod.mk.injEq] at h
              obtain ⟨h1, h2⟩ := h
              refine ⟨positions, normals, texCoords, ⟨1, 1, 1, 1⟩, vertices,
                textures, st1, rfl, rfl, rfl, fun _ => rfl, ?_, hv, rfl,
                h1.symm, h2.symm⟩
              intro c cs hcc
              exact Option.noConfusion hcc
        | some colors =>
          simp only [hc] at h
          cases colors with
          | nil => simp at h
          | cons c0 cs0 =>
            simp only at h
            cases hv : mkVertices positions normals texCoords c0 with
            | error e => simp [hv] at h
            | ok vertices =>
              simp only [hv] at h
              cases htex : loadPrimTextures images st p with
              | error e => simp [htex] at h
              | ok pr =>
                obtain ⟨textures, st1⟩ := pr
                simp only [htex, Except.ok.injEq, Prod.mk.injEq] at h
                obtain ⟨h1, h2⟩ := h
                refine ⟨positions, normals, texCoords, c0, vertices,
                  textures, st1, rfl, rfl, rfl, ?_, ?_, hv, rfl, h1.symm, h2.symm⟩
                · intro hcc; exact Option.noConfusion hcc
                · intro c cs hcc
                  simp only [Option.some.injEq, List.cons.injEq] at hcc
                  exact hcc.1

/-- C8: a primitive whose vertex-color reader yields no data produces a mesh
whose every vertex carries the color `(1, 1, 1, 1)`; when color data is
present, the first vertex's color attribute is applied to every vertex of
the primitive. -/
theorem C8_vertex_color (images : List GImage) (st : LoadState)
    (p : GPrimitive) (mesh : Mesh) (st2 : LoadState)
    (h : loadPrimitive images st p = .ok (mesh, st2)) :
    (p.colors = none → ∀ v ∈ mesh.vertices, v.color = ⟨1, 1, 1, 1⟩) ∧
    (∀ c cs, p.colors = some (c :: cs) → ∀ v ∈ mesh.vertices, v.color = c) := by
  obtain ⟨positions, normals, texCoords, color, vertices, textures, st1,
    _, _, _, hcn, hcs, hv, _, hmesh, _⟩ := loadPrimitive_fields images st p mesh st2 h
  subst hmesh
  constructor
  · intro hc v hvm
    rw [← hcn hc]
    exact mkVertices_color positions normals texCoords color vertices hv v hvm
  · intro c cs hc v hvm
    rw [← hcs c cs hc]
    exact mkVertices_color positions normals texCoords color vertices hv v hvm

/-- C9: a primitive whose index reader yields no data loads with an empty
index sequence; when index data is present the indices are the source values
widened to the 32-bit unsigned domain (in particular, well-formed source
values stay below `2 ^ 32`). -/
theorem C9_index_default (images : List GImage) (st : LoadState)
    (p : GPrimitive) (mesh : Mesh) (st2 : LoadState)
    (h : loadPrimitive images st p = .ok (mesh, st2)) :
    (p.indices = none → mesh.indices = []) ∧
    (∀ gi, p.indices = some gi → mesh.indices = gi.intoU32 ∧
      (gi.wf → ∀ v ∈ mesh.indices, v < 2 ^ 32)) := by
  obtain ⟨positions, normals, texCoords, color, vertices, textures, st1,
    _, _, _, _, _, _, _, hmesh, _⟩ := loadPrimitive_fields images st p mesh st2 h
  subst hmesh
  constructor
  · intro hi
    simp [Mesh.new, hi]
  · intro gi hi
    constructor
    · simp [Mesh.new, hi]
    · intro hwf v hvm
      simp only [Mesh.new, hi] at hvm
      exact lt_of_lt_of_le (hwf v hvm) (IndexWidth.bound_le gi.width)

/-! ## Pixel-format handling of the two texture slots -/

/-- C6: on a cache miss for an in-range image, a base-color image whose
format is none of the three supported ones aborts the load with the format
panic, while the supported ones map 4-channel to `RGBA`, 3-channel to `RGB`
and 1-channel to `RED`; the metallic-roughness slot never aborts on a
format: 4-channel maps to `RGBA`, 3-channel to `RGB`, and any other format
silently degrades to `RGB` with loading continuing. -/
theorem C6_format_asymmetry (images : List GImage) (st : LoadState) (i : Nat)
    (img : GImage) (hc : cacheLookup st.cache i = none)
    (hi : images[i]? = some img) :
    (img.format = .Other →
      loadDiffuseTexture images st i = .error unsupportedFormatMsg) ∧
    (img.format = .R8G8B8A8 →
      (loadDiffuseTexture images st i).map (fun pr => pr.1.format) =
        .ok .RGBA) ∧
    (img.format = .R8G8B8 →
      (loadDiffuseTexture images st i).map (fun pr => pr.1.format) =
        .ok .RGB) ∧
    (img.format = .R8 →
      (loadDiffuseTexture images st i).map (fun pr => pr.1.format) =
        .ok .RED) ∧
    ((loadSpecularTexture images st i).map (fun pr => pr.1.format) =
      .ok (specularFormat img.format)) ∧
    (img.format ≠ .R8G8B8A8 → img.format ≠ .R8G8B8 →
      (loadSpecularTexture images st i).map (fun pr => pr.1.format) =
        .ok .RGB) := by
  refine ⟨?_, ?_, ?_, ?_, ?_, ?_⟩
  · intro hf
    simp [loadDiffuseTexture, hc, hi, hf, diffuseFormat]
  · intro hf
    simp [loadDiffuseTexture, hc, hi, hf, diffuseFormat, Except.map]
  · intro hf
    simp [loadDiffuseTexture, hc, hi, hf, diffuseFormat, Except.map]
  · intro hf
    simp [loadDiffuseTexture, hc, hi, hf, diffuseFormat, Except.map]
  · simp [loadSpecularTexture, hc, hi, Except.map]
  · intro h1 h2
    simp only [loadSpecularTexture, hc, hi, Except.map]
    cases hf : img.format with
    | R8G8B8A8 => exact absurd hf h1
    | R8G8B8 => exact absurd hf h2
    | R8 => simp [specularFormat]
    | Other => simp [specularFormat]

/-! ## The texture cache: invariants for sharing and single loading -/

theorem cacheLookup_some_mem {l : List (Nat × Texture)} {i : Nat}
    {t : Texture} (h : cacheLookup l i = some t) : (i, t) ∈ l := by
  induction l with
  | nil => cases h
  | cons kv rest ih =>
    obtain ⟨k, v⟩ := kv
    simp only [cacheLookup] at h
    split at h
    · rename_i heq
      injection h with h2
      subst heq
      subst h2
      exact List.mem_cons_self _ _
    · exact List.mem_cons_of_mem _ (ih h)

theorem cacheLookup_none_not_mem {l : List (Nat × Texture)} {i : Nat}
    (h : cacheLookup l i = none) : i ∉ l.map Prod.fst := by
  induction l with
  | nil => simp
  | cons kv rest ih =>
    obtain ⟨k, v⟩ := kv
    simp only [cacheLookup] at h
    split at h
    · exact Option.noConfusion h
    · rename_i hne
      simp only [List.map_cons, List.mem_cons]
      rintro (h1 | h1)
      · exact hne h1.symm
      · exact ih h h1

/-- Invariant of the cache state: cache keys are distinct; each cached
texture was created from the image index it is keyed by; the ghost load log
is exactly the key list in insertion order. -/
def stWF (st : LoadState) : Prop :=
  (st.cache.map Prod.fst).Nodup ∧
  (∀ pr ∈ st.cache, pr.2.imageIndex = pr.1) ∧
  st.events = (st.cache.map Prod.fst).reverse

theorem stWF_init : stWF initState :=
  ⟨by simp [initState], by simp [initState], by simp [initState]⟩

theorem cache_key_det {l : List (Nat × Texture)}
    (hn : (l.map Prod.fst).Nodup) :
    ∀ pr1 ∈ l, ∀ pr2 ∈ l, pr1.1 = pr2.1 → pr1 = pr2 := by
  induction l with
  | nil => intro pr1 h1; simp at h1
  | cons kv rest ih =>
    simp only [List.map_cons, List.nodup_cons] at hn
    intro pr1 h1 pr2 h2 hk
    rcases List.mem_cons.mp h1 with h1 | h1 <;>
      rcases List.mem_cons.mp h2 with h2 | h2
    · rw [h1, h2]
    · exfalso
      apply hn.1
      rw [← h1, hk]
      exact List.mem_map_of_mem _ h2
    · exfalso
      apply hn.1
      rw [← h2, ← hk]
      exact List.mem_map_of_mem _ h1
    · exact ih hn.2 pr1 h1 pr2 h2 hk

/-- One cache-threading step: the old entries persist, the key set grows by
exactly the indices satisfying `r`, and well-formedness is preserved. -/
def cacheStep (st st2 : LoadState) (r : Nat → Prop) : Prop :=
  (∀ pr ∈ st.cache, pr ∈ st2.cache) ∧
  (∀ j, j ∈ st2.cache.map Prod.fst ↔ j ∈ st.cache.map Prod.fst ∨ r j) ∧
  (stWF st → stWF st2)

theorem cacheStep_id {st : LoadState} : cacheStep st st (fun _ => False) :=
  ⟨fun _ h => h, by simp, id⟩

theorem cacheStep_trans {st1 st2 st3 : LoadState} {r1 r2 : Nat → Prop}
    (h1 : cacheStep st1 st2 r1) (h2 : cacheStep st2 st3 r2) :
    cacheStep st1 st3 (fun j => r1 j ∨ r2 j) := by
  refine ⟨fun pr h => h2.1 pr (h1.1 pr h), fun j => ?_,
    fun hw => h2.2.2 (h1.2.2 hw)⟩
  rw [h2.2.1 j, h1.2.1 j]
  tauto

theorem cacheStep_iff {st st2 : LoadState} {r s : Nat → Prop}
    (h : cacheStep st st2 r) (hrs : ∀ j, r j ↔ s j) : cacheStep st st2 s := by
  refine ⟨h.1, fun j => ?_, h.2.2⟩
  rw [h.2.1 j, hrs j]

theorem values_mono {c1 c2 : List (Nat × Texture)}
    (h : ∀ pr ∈ c1, pr ∈ c2) {t : Texture} (ht : t ∈ c1.map Prod.snd) :
    t ∈ c2.map Prod.snd := by
  obtain ⟨pr, hpr, he⟩ := List.mem_map.mp ht
  rw [← he]
  exact List.mem_map_of_mem _ (h pr hpr)

theorem loadDiffuseTexture_step {images : List GImage} {st : LoadState}
    {i : Nat} {t : Texture} {st2 : LoadState}
    (h : loadDiffuseTexture images st i = .ok (t, st2)) :
    cacheStep st st2 (fun j => j = i) ∧ t ∈ st2.cache.map Prod.snd := by
  simp only [loadDiffuseTexture] at h
  cases hl : cacheLookup st.cache i with
  | some t0 =>
    simp only [hl, Except.ok.injEq, Prod.mk.injEq] at h
    obtain ⟨h1, h2⟩ := h
    subst h1
    subst h2
    have hmem : i ∈ st.cache.map Prod.fst :=
      List.mem_map_of_mem _ (cacheLookup_some_mem hl)
    refine ⟨⟨fun _ hp => hp, fun j => ?_, id⟩, ?_⟩
    · constructor
      · exact Or.inl
      · rintro (hj | hj)
        · exact hj
        · rw [hj]; exact hmem
    · exact List.mem_map_of_mem _ (cacheLookup_some_mem hl)
  | none =>
    simp only [hl] at h
    cases hi : images[i]? with
    | none => simp [hi] at h
    | some image =>
      simp only [hi] at h
      cases hf : diffuseFormat image.format with
      | error e => simp [hf] at h
      | ok fmt =>
        simp only [hf, Except.ok.injEq, Prod.mk.injEq] at h
        obtain ⟨h1, h2⟩ := h
        subst h1
        subst h2
        refine ⟨⟨fun pr hp => List.mem_cons_of_mem _ hp, fun j => ?_, ?_⟩, ?_⟩
        · simp only [List.map_cons, List.mem_cons]
          tauto
        · rintro ⟨hnd, hidx, hev⟩
          refine ⟨?_, ?_, ?_⟩
          · simp only [List.map_cons, List.nodup_cons]
            exact ⟨cacheLookup_none_not_mem hl, hnd⟩
          · rintro pr hp
            rcases List.mem_cons.mp hp with hp1 | hp1
            · rw [hp1]
            · exact hidx pr hp1
          · simp only [List.map_cons, List.reverse_cons]
            rw [← hev]
        · exact List.mem_map_of_mem _ (List.mem_cons_self _ _)

theorem loadSpecularTexture_step {images : List GImage} {st : LoadState}
    {i : Nat} {t : Texture} {st2 : LoadState}
    (h : loadSpecularTexture images st i = .ok (t, st2)) :
    cacheStep st st2 (fun j => j = i) ∧ t ∈ st2.cache.map Prod.snd := by
  simp only [loadSpecularTexture] at h
  cases hl : cacheLookup st.cache i with
  | some t0 =>
    simp only [hl, Except.ok.injEq, Prod.mk.injEq] at h
    obtain ⟨h1, h2⟩ := h
    subst h1
    subst h2
    have hmem : i ∈ st.cache.map Prod.fst :=
      List.mem_map_of_mem _ (cacheLookup_some_mem hl)
    refine ⟨⟨fun _ hp => hp, fun j => ?_, id⟩, ?_⟩
    · constructor
      · exact Or.inl
      · rintro (hj | hj)
        · exact hj
        · rw [hj]; exact hmem
    · exact List.mem_map_of_mem _ (cacheLookup_some_mem hl)
  | none =>
    simp only [hl] at h
    cases hi : images[i]? with
    | none => simp [hi] at h
    | some image =>
      simp only [hi, Except.ok.injEq, Prod.mk.injEq] at h
      obtain ⟨h1, h2⟩ := h
      subst h1
      subst h2
      refine ⟨⟨fun pr hp => List.mem_cons_of_mem _ hp, fun j => ?_, ?_⟩, ?_⟩
      · simp only [List.map_cons, List.mem_cons]
        tauto
      · rintro ⟨hnd, hidx, hev⟩
        refine ⟨?_, ?_, ?_⟩
        · simp only [List.map_cons, List.nodup_cons]
          exact ⟨cacheLookup_none_not_mem hl, hnd⟩
        · rintro pr hp
          rcases List.mem_cons.mp hp with hp1 | hp1
          · rw [hp1]
          · exact hidx pr hp1
        · simp only [List.map_cons, List.reverse_cons]
          rw [← hev]
      · exact List.mem_map_of_mem _ (List.mem_cons_self _ _)

/-- A primitive references image index `j` when one of its two texture slots
names it. -/
def primRefP (p : GPrimitive) (j : Nat) : Prop :=
  p.baseColorTexture = some j ∨ p.metallicRoughnessTexture = some j

instance (p : GPrimitive) (j : Nat) : Decidable (primRefP p j) := by
  unfold primRefP
  infer_instance

/-- A document node references image index `j` when some primitive of its
mesh does. -/
def gnodeRefP (n : GNode) (j : Nat) : Prop :=
  ∃ gm, n.mesh = some gm ∧ ∃ p ∈ gm.primitives, primRefP p j

instance (n : GNode) (j : Nat) : Decidable (gnodeRefP n j) :=
  match hm : n.mesh with
  | some gm =>
    decidable_of_iff (∃ p ∈ gm.primitives, primRefP p j)
      (by
        constructor
        · rintro ⟨p, hp, hr⟩
          exact ⟨gm, hm, p, hp, hr⟩
        · rintro ⟨gm2, hm2, hp⟩
          rw [hm] at hm2
          injection hm2 with hm3
          rw [hm3]
          exact hp)
  | none =>
    isFalse (by
      rintro ⟨gm, hm2, _⟩
      rw [hm] at hm2
      exact Option.noConfusion hm2)

/-- The document references image index `j` when some primitive of some of
its nodes' meshes does. -/
def docRefP (doc : GltfDoc) (j : Nat) : Prop :=
  ∃ n ∈ doc.nodes, gnodeRefP n j

instance (doc : GltfDoc) (j : Nat) : Decidable (docRefP doc j) := by
  unfold docRefP
  infer_instance

/-- All texture handles held by a list of meshes. -/
def meshesTextures (ms : List Mesh) : List Texture :=
  ms.flatMap fun msh => msh.textures

/-- All texture handles held by the meshes of a list of loaded nodes. -/
def nodesTextures (ns : List Node) : List Texture :=
  ns.flatMap fun nd => meshesTextures nd.mesh_primitives

theorem loadPrimTextures_step {images : List GImage} {st : LoadState}
    {p : GPrimitive} {ts : List Texture} {st2 : LoadState}
    (h : loadPrimTextures images st p = .ok (ts, st2)) :
    cacheStep st st2 (primRefP p) ∧
    ∀ t ∈ ts, t ∈ st2.cache.map Prod.snd := by
  simp only [loadPrimTextures] at h
  cases hb : p.baseColorTexture with
  | some i =>
    simp only [hb] at h
    cases hd : loadDiffuseTexture images st i with
    | error e => simp [hd] at h
    | ok pr1 =>
      obtain ⟨t1, st1⟩ := pr1
      simp only [hd] at h
      obtain ⟨hstep1, hval1⟩ := loadDiffuseTexture_step hd
      cases hm : p.metallicRoughnessTexture with
      | some j =>
        simp only [hm] at h
        cases hs : loadSpecularTexture images st1 j with
        | error e => simp [hs] at h
        | ok pr2 =>
          obtain ⟨t2, stB⟩ := pr2
          simp only [hs, Except.ok.injEq, Prod.mk.injEq] at h
          obtain ⟨h1, h2⟩ := h
          subst h1
          subst h2
          obtain ⟨hstep2, hval2⟩ := loadSpecularTexture_step hs
          constructor
          · refine cacheStep_iff (cacheStep_trans hstep1 hstep2) fun k => ?_
            simp only [primRefP, hb, hm, Option.some.injEq]
            constructor
            · rintro (hk | hk)
              · exact Or.inl hk.symm
              · exact Or.inr hk.symm
            · rintro (hk | hk)
              · exact Or.inl hk.symm
              · exact Or.inr hk.symm
          · intro t ht
            rcases List.mem_cons.mp ht with ht1 | ht1
            · rw [ht1]
              exact values_mono hstep2.1 hval1
            · rcases List.mem_cons.mp ht1 with ht2 | ht2
              · rw [ht2]
                exact hval2
              · simp at ht2
      | none =>
        simp only [hm, Except.ok.injEq, Prod.mk.injEq] at h
        obtain ⟨h1, h2⟩ := h
        subst h1
        subst h2
        constructor
        · refine cacheStep_iff hstep1 fun k => ?_
          simp only [primRefP, hb, hm, Option.some.injEq]
          constructor
          · intro hk
            exact Or.inl hk.symm
          · rintro (hk | hk)
            · exact hk.symm
            · exact Option.noConfusion hk
        · intro t ht
          rcases List.mem_cons.mp ht with ht1 | ht1
          · rw [ht1]
            exact hval1
          · simp at ht1
  | none =>
    simp only [hb] at h
    cases hm : p.metallicRoughnessTexture with
    | some j =>
      simp only [hm] at h
      cases hs : loadSpecularTexture images st j with
      | error e => simp [hs] at h
      | ok pr2 =>
        obtain ⟨t2, stB⟩ := pr2
        simp only [hs, Except.ok.injEq, Prod.mk.injEq] at h
        obtain ⟨h1, h2⟩ := h
        subst h1
        subst h2
        obtain ⟨hstep2, hval2⟩ := loadSpecularTexture_step hs
        constructor
        · refine cacheStep_iff hstep2 fun k => ?_
          simp only [primRefP, hb, hm, Option.some.injEq]
          constructor
          · intro hk
            exact Or.inr hk.symm
          · rintro (hk | hk)
            · exact Option.noConfusion hk
            · exact hk.symm
        · intro t ht
          rcases List.mem_cons.mp ht with ht1 | ht1
          · rw [ht1]
            exact hval2
          · simp at ht1
    | none =>
      simp only [hm, Except.ok.injEq, Prod.mk.injEq] at h
      obtain ⟨h1, h2⟩ := h
      subst h1
      subst h2
      constructor
      · refine cacheStep_iff cacheStep_id fun k => ?_
        simp [primRefP, hb, hm]
      · intro t ht
        simp at ht

theorem loadPrimitive_step {images : List GImage} {st : LoadState}
    {p : GPrimitive} {mesh : Mesh} {st2 : LoadState}
    (h : loadPrimitive images st p = .ok (mesh, st2)) :
    cacheStep st st2 (primRefP p) ∧
    ∀ t ∈ mesh.textures, t ∈ st2.cache.map Prod.snd := by
  obtain ⟨positions, normals, texCoords, color, vertices, textures, st1,
    _, _, _, _, _, _, htex, hmesh, hst⟩ :=
    loadPrimitive_fields images st p mesh st2 h
  subst hmesh
  subst hst
  obtain ⟨hstep, hval⟩ := loadPrimTextures_step htex
  exact ⟨hstep, hval⟩

theorem loadPrims_step {images : List GImage} :
    ∀ {ps : List GPrimitive} {st : LoadState} {meshes : List Mesh}
      {st2 : LoadState},
      loadPrims images st ps = .ok (meshes, st2) →
      cacheStep st st2 (fun j => ∃ p ∈ ps, primRefP p j) ∧
      ∀ t ∈ meshesTextures meshes, t ∈ st2.cache.map Prod.snd := by
  intro ps
  induction ps with
  | nil =>
    intro st meshes st2 h
    simp only [loadPrims, Except.ok.injEq, Prod.mk.injEq] at h
    obtain ⟨h1, h2⟩ := h
    subst h1
    subst h2
    constructor
    · refine cacheStep_iff cacheStep_id fun k => ?_
      simp
    · intro t ht
      simp [meshesTextures] at ht
  | cons p ps ih =>
    intro st meshes st2 h
    simp only [loadPrims] at h
    cases hp : loadPrimitive images st p with
    | error e => simp [hp] at h
    | ok pr1 =>
      obtain ⟨mesh, st1⟩ := pr1
      simp only [hp] at h
      cases hr : loadPrims images st1 ps with
      | error e => simp [hr] at h
      | ok pr2 =>
        obtain ⟨ms, stB⟩ := pr2
        simp only [hr, Except.ok.injEq, Prod.mk.injEq] at h
        obtain ⟨h1, h2⟩ := h
        subst h1
        subst h2
        obtain ⟨hstep1, hval1⟩ := loadPrimitive_step hp
        obtain ⟨hstep2, hval2⟩ := ih hr
        constructor
        · refine cacheStep_iff (cacheStep_trans hstep1 hstep2) fun k => ?_
          constructor
          · rintro (hk | ⟨q, hq, hk⟩)
            · exact ⟨p, List.mem_cons_self _ _, hk⟩
            · exact ⟨q, List.mem_cons_of_mem _ hq, hk⟩
          · rintro ⟨q, hq, hk⟩
            rcases List.mem_cons.mp hq with hq1 | hq1
            · exact Or.inl (hq1 ▸ hk)
            · exact Or.inr ⟨q, hq1, hk⟩
        · intro t ht
          simp only [meshesTextures, List.flatMap_cons, List.mem_append] at ht
          rcases ht with ht1 | ht1
          · exact values_mono hstep2.1 (hval1 t ht1)
          · exact hval2 t ht1

theorem loadNodes_step {images : List GImage} :
    ∀ {ns : List GNode} {st : LoadState} {res : List Node} {st2 : LoadState},
      loadNodes images st ns = .ok (res, st2) →
      cacheStep st st2 (fun j => ∃ n ∈ ns, gnodeRefP n j) ∧
      ∀ t ∈ nodesTextures res, t ∈ st2.cache.map Prod.snd := by
  intro ns
  induction ns with
  | nil =>
    intro st res st2 h
    simp only [loadNodes, Except.ok.injEq, Prod.mk.injEq] at h
    obtain ⟨h1, h2⟩ := h
    subst h1
    subst h2
    constructor
    · refine cacheStep_iff cacheStep_id fun k => ?_
      simp
    · intro t ht
      simp [nodesTextures] at ht
  | cons n rest ih =>
    intro st res st2 h
    simp only [loadNodes] at h
    cases hname : n.name with
    | none => simp [hname] at h
    | some nm =>
      simp only [hname] at h
      cases hmesh : n.mesh with
      | none =>
        simp only [hmesh] at h
        obtain ⟨hstep, hval⟩ := ih h
        constructor
        · refine cacheStep_iff hstep fun k => ?_
          constructor
          · rintro ⟨q, hq, hk⟩
            exact ⟨q, List.mem_cons_of_mem _ hq, hk⟩
          · rintro ⟨q, hq, hk⟩
            rcases List.mem_cons.mp hq with hq1 | hq1
            · exfalso
              obtain ⟨gm, hgm, _⟩ := hk
              rw [hq1, hmesh] at hgm
              exact Option.noConfusion hgm
            · exact ⟨q, hq1, hk⟩
        · exact hval
      | some gm =>
        simp only [hmesh] at h
        cases hp : loadPrims images st gm.primitives with
        | error e => simp [hp] at h
        | ok pr1 =>
          obtain ⟨meshes, st1⟩ := pr1
          simp only [hp] at h
          cases hr : loadNodes images st1 rest with
          | error e => simp [hr] at h
          | ok pr2 =>
            obtain ⟨nodes, stB⟩ := pr2
            simp only [hr, Except.ok.injEq, Prod.mk.injEq] at h
            obtain ⟨h1, h2⟩ := h
            subst h1
            subst h2
            obtain ⟨hstep1, hval1⟩ := loadPrims_step hp
            obtain ⟨hstep2, hval2⟩ := ih hr
            constructor
            · refine cacheStep_iff (cacheStep_trans hstep1 hstep2) fun k => ?_
              constructor
              · rintro (⟨q, hq, hk⟩ | ⟨q, hq, hk⟩)
                · exact ⟨n, List.mem_cons_self _ _, gm, hmesh, q, hq, hk⟩
                · exact ⟨q, List.mem_cons_of_mem _ hq, hk⟩
              · rintro ⟨q, hq, hk⟩
                rcases List.mem_cons.mp hq with hq1 | hq1
                · obtain ⟨gm2, hgm2, pq, hpq, hk2⟩ := hk
                  rw [hq1, hmesh] at hgm2
                  injection hgm2 with hgm3
                  exact Or.inl ⟨pq, hgm3 ▸ hpq, hk2⟩
                · exact Or.inr ⟨q, hq1, hk⟩
            · intro t ht
              simp only [nodesTextures, List.flatMap_cons, List.mem_append] at ht
              rcases ht with ht1 | ht1
              · exact values_mono hstep2.1 (hval1 t ht1)
              · exact hval2 t ht1

/-- C1: after a successful load, any two texture handles held by the loaded
meshes that come from the same source image index are equal — the same
shared instance, regardless of the roles that requested them — and the
texture load routine ran exactly once for every image index some primitive
references, and never for any other index. -/
theorem C1_texture_cache_dedup (doc : GltfDoc) (res : List Node)
    (st : LoadState) (h : loadModelAux doc = .ok (res, st)) :
    (∀ t1 ∈ nodesTextures res, ∀ t2 ∈ nodesTextures res,
      t1.imageIndex = t2.imageIndex → t1 = t2) ∧
    (∀ i, st.events.count i = if docRefP doc i then 1 else 0) := by
  simp only [loadModelAux] at h
  obtain ⟨hstep, hval⟩ := loadNodes_step h
  have hwf := hstep.2.2 stWF_init
  constructor
  · intro t1 h1 t2 h2 hidx
    obtain ⟨pr1, hpr1, he1⟩ := List.mem_map.mp (hval t1 h1)
    obtain ⟨pr2, hpr2, he2⟩ := List.mem_map.mp (hval t2 h2)
    have hk : pr1.1 = pr2.1 := by
      rw [← hwf.2.1 pr1 hpr1, ← hwf.2.1 pr2 hpr2, he1, he2]
      exact hidx
    have hpr := cache_key_det hwf.1 pr1 hpr1 pr2 hpr2 hk
    rw [← he1, ← he2, hpr]
  · intro i
    have hkeys := hstep.2.1 i
    have hev : st.events = (st.cache.map Prod.fst).reverse := hwf.2.2
    have hinit : i ∈ initState.cache.map Prod.fst ↔ False := by
      simp [initState]
    by_cases href : docRefP doc i
    · rw [if_pos href]
      have hmem : i ∈ st.events := by
        rw [hev, List.mem_reverse]
        exact hkeys.mpr (Or.inr href)
      have hnd : st.events.Nodup := by
        rw [hev]
        exact List.nodup_reverse.mpr hwf.1
      exact List.count_eq_one_of_mem hnd hmem
    · rw [if_neg href]
      refine List.count_eq_zero.mpr fun hmem => ?_
      rw [hev, List.mem_reverse] at hmem
      rcases hkeys.mp hmem with hm1 | hm1
      · exact hinit.mp hm1
      · exact href hm1

/-! ## Concrete documents for the witnesses -/

theorem List_getD_mem {A : Type} {l : List A} {i : Nat} (d : A)
    (h : i < l.length) : l.getD i d ∈ l := by
  rw [List.getD_eq_getElem l d h]
  exact List.getElem_mem h

def demoImage : GImage :=
  { pixels := [255, 0, 0, 255], width := 1, height := 1, format := .R8G8B8A8 }

def demoPrim1 : GPrimitive :=
  { positions := some [⟨0, 0, 0⟩], normals := some [⟨0, 0, 1⟩],
    texCoords := some [⟨0, 0⟩], colors := none, indices := none,
    baseColorFactor := ⟨1, 1, 1, 1⟩, doubleSided := false,
    baseColorTexture := some 0, metallicRoughnessTexture := some 0 }

def demoPrim2 : GPrimitive :=
  { positions := some [⟨1, 0, 0⟩], normals := some [⟨0, 1, 0⟩],
    texCoords := some [⟨1, 1⟩], colors := some [⟨1, 0, 0, 1⟩],
    indices := some ⟨.U16, [0]⟩, baseColorFactor := ⟨1, 1, 1, 1⟩,
    doubleSided := true, baseColorTexture := some 0,
    metallicRoughnessTexture := none }

def demoDoc : GltfDoc :=
  { nodes :=
      [{ name := some "empty", translation := ⟨0, 0, 0⟩,
         rotation := ⟨0, 0, 0, 1⟩, scale := ⟨1, 1, 1⟩, mesh := none },
       { name := some "cube", translation := ⟨1, 2, 3⟩,
         rotation := ⟨0, 0, 0, 1⟩, scale := ⟨1, 1, 1⟩,
         mesh := some { primitives := [demoPrim1, demoPrim2] } }],
    images := [demoImage] }

def demoLoaded : List Node × LoadState :=
  match loadModelAux demoDoc with
  | .ok v => v
  | .error _ => ([], initState)

theorem demoLoaded_eq : loadModelAux demoDoc = .ok demoLoaded := rfl

/-- The single node emitted for the demo document. -/
def demoNode : Node := demoLoaded.1.getD 0 default

/-- Loaded mesh of the demo document's first primitive. -/
def demoMeshA : Mesh := demoNode.mesh_primitives.getD 0 default

/-- Loaded mesh of the demo document's second primitive. -/
def demoMeshB : Mesh := demoNode.mesh_primitives.getD 1 default

/-- Diffuse handle received by the first primitive. -/
def texA : Texture := demoMeshA.textures.getD 0 default

/-- Diffuse handle received by the second primitive. -/
def texB : Texture := demoMeshB.textures.getD 0 default

theorem demoNode_mem : demoNode ∈ demoLoaded.1 :=
  List_getD_mem _ (by decide)

theorem texA_mem : texA ∈ nodesTextures demoLoaded.1 := by
  refine List.mem_flatMap.mpr ⟨demoNode, demoNode_mem, ?_⟩
  exact List.mem_flatMap.mpr
    ⟨demoMeshA, List_getD_mem _ (by decide), List_getD_mem _ (by decide)⟩

theorem texB_mem : texB ∈ nodesTextures demoLoaded.1 := by
  refine List.mem_flatMap.mpr ⟨demoNode, demoNode_mem, ?_⟩
  exact List.mem_flatMap.mpr
    ⟨demoMeshB, List_getD_mem _ (by decide), List_getD_mem _ (by decide)⟩

theorem demoDoc_refs_zero : docRefP demoDoc 0 :=
  ⟨demoDoc.nodes.getD 1 default, List_getD_mem _ (by decide),
   { primitives := [demoPrim1, demoPrim2] }, rfl,
   demoPrim1, List.mem_cons_self _ _, Or.inl rfl⟩

/-- Witness for C1: in the demo document two primitives reference image 0 and
receive the identical shared handle, and the load routine ran once for it. -/
theorem C1_texture_cache_dedup_witness :
    texA = texB ∧ demoLoaded.2.events.count 0 = 1 := by
  have h := C1_texture_cache_dedup demoDoc demoLoaded.1 demoLoaded.2
    demoLoaded_eq
  refine ⟨h.1 texA texA_mem texB texB_mem rfl, ?_⟩
  rw [h.2 0, if_pos demoDoc_refs_zero]

/-- Witness for C2 at the demo document: one of its two document nodes
carries a mesh, and exactly one node is emitted, with matching shape. -/
theorem C2_emitted_nodes_witness :
    demoLoaded.1.length =
      (demoDoc.nodes.filter fun n => n.mesh.isSome).length ∧
    demoLoaded.1.map nodeShape =
      (demoDoc.nodes.filter fun n => n.mesh.isSome).map gnodeShape :=
  C2_emitted_nodes demoDoc demoLoaded.1 demoLoaded.2 demoLoaded_eq

/-- Witness for C5 at the demo document's emitted node. -/
theorem C5_trs_matrix_witness :
    (∃ gn, gn ∈ demoDoc.nodes ∧ gn.mesh.isSome ∧
      demoNode.transform = { translation := gn.translation,
                             rotation := mkQuat gn.rotation,
                             scale := gn.scale }) ∧
    demoNode.transform_matrix =
      translationMatrix demoNode.transform.translation *
        quatToMat4 demoNode.transform.rotation *
        scaleMatrix demoNode.transform.scale :=
  C5_trs_matrix demoDoc demoLoaded.1 demoLoaded.2 demoLoaded_eq demoNode
    demoNode_mem

def demoImageOther : GImage :=
  { pixels := [0], width := 1, height := 1, format := .Other }

/-- Witness for C6: on an image of unrecognised format, the diffuse slot
aborts with the format panic while the specular slot degrades to `RGB`. -/
theorem C6_format_asymmetry_witness :
    loadDiffuseTexture [demoImageOther] initState 0 =
      .error unsupportedFormatMsg ∧
    (loadSpecularTexture [demoImageOther] initState 0).map
      (fun pr => pr.1.format) = .ok .RGB := by
  have h := C6_format_asymmetry [demoImageOther] initState 0 demoImageOther
    rfl rfl
  exact ⟨h.1 rfl,
    h.2.2.2.2.2 (fun hcc => GFormat.noConfusion hcc)
      (fun hcc => GFormat.noConfusion hcc)⟩

def prim1Res : Mesh × LoadState :=
  match loadPrimitive demoDoc.images initState demoPrim1 with
  | .ok v => v
  | .error _ => (default, initState)

theorem prim1Res_eq :
    loadPrimitive demoDoc.images initState demoPrim1 = .ok prim1Res := rfl

/-- Witness for C8: the first primitive of the demo document has no vertex
colors, and its loaded vertex carries the color `(1, 1, 1, 1)`. -/
theorem C8_vertex_color_witness :
    (prim1Res.1.vertices.getD 0 default).color = ⟨1, 1, 1, 1⟩ :=
  (C8_vertex_color demoDoc.images initState demoPrim1 prim1Res.1 prim1Res.2
    prim1Res_eq).1 rfl _ (List_getD_mem _ (by decide))

def prim2Res : Mesh × LoadState :=
  match loadPrimitive demoDoc.images initState demoPrim2 with
  | .ok v => v
  | .error _ => (default, initState)

theorem prim2Res_eq :
    loadPrimitive demoDoc.images initState demoPrim2 = .ok prim2Res := rfl

/-- Witness for C9: the second primitive of the demo document has 16-bit
index data `[0]`, and its loaded mesh's indices are those values in the
32-bit domain. -/
theorem C9_index_default_witness :
    prim2Res.1.indices = GIndices.intoU32 ⟨.U16, [0]⟩ ∧ (0 : Nat) < 2 ^ 32 := by
  have h := (C9_index_default demoDoc.images initState demoPrim2 prim2Res.1
    prim2Res.2 prim2Res_eq).2 ⟨.U16, [0]⟩ rfl
  refine ⟨h.1, h.2 (by decide) 0 ?_⟩
  rw [show prim2Res.1.indices = [0] from rfl]
  exact List.mem_cons_self _ _

end LearnRust
